import Mathlib

/-!
Verification of the Task Tracker CLI (`task_cli.py`).

The script is embedded shallowly:

* JSON values are the inductive `Json` (numbers are the integers the task
  file actually contains; Python dicts become association lists preserving
  insertion order, exactly as CPython does).
* The storage file is a `FileContent`: absent, present-but-malformed, or a
  parsed JSON value.  The standard library's `json.dump`/`json.load` pair
  is treated as a faithful codec, so `save_tasks` stores the JSON value
  itself; the script's own contribution (the `isinstance(data, list)`
  check, the warning messages, returning the data unchanged) is embedded
  literally.
* A command handler returns `Option (FileContent × List String)`:
  the new file state together with the lines printed, and `none` models an
  uncaught Python exception (e.g. `.get` on a non-dict element).
* Wall-clock time (`now_iso`) is passed in as an explicit `now` string.
-/

namespace TaskCli

/-- JSON values as handled by the script.  Numbers are modelled as the
integers the task file contains (floats and Python's int/bool numeric
coercions are outside every claim and are not modelled); objects keep
insertion order like CPython dicts. -/
inductive Json where
  | null
  | bool (b : Bool)
  | num (n : Int)
  | str (s : String)
  | arr (elems : List Json)
  | obj (fields : List (String × Json))

/-- The state of `tasks.json`: missing, present but not valid JSON, or a
parsed JSON value. -/
inductive FileContent where
  | absent
  | malformed
  | json (j : Json)

/-- Lookup in a Python dict rendered as an insertion-ordered assoc list. -/
def lookupKey : List (String × Json) → String → Option Json
  | [], _ => none
  | (k, v) :: rest, key => if k = key then some v else lookupKey rest key

/-- Python dict item assignment `d[key] = v`: replaces the value in place
when the key exists (keeping its position), otherwise appends at the end. -/
def setKey : List (String × Json) → String → Json → List (String × Json)
  | [], key, v => [(key, v)]
  | (k, w) :: rest, key, v =>
      if k = key then (key, v) :: rest else (k, w) :: setKey rest key v

/-- `t.get(key)`.  `none` models the AttributeError crash when `t` is not a
dict; `some none` a dict lacking the key; `some (some v)` the value. -/
def dictGet (t : Json) (k : String) : Option (Option Json) :=
  match t with
  | .obj kvs => some (lookupKey kvs k)
  | _ => none

/-- `t[key]` item access: the value if `t` is a dict containing `key`,
otherwise `none` (KeyError / TypeError crash). -/
def dictItem (t : Json) (k : String) : Option Json :=
  match t with
  | .obj kvs => lookupKey kvs k
  | _ => none

/-- `load_tasks()` (task_cli.py lines 40-52): the loaded collection
together with the warning lines it prints. -/
def load_tasks : FileContent → List Json × List String
  | .absent => ([], [])
  | .malformed => ([], ["Corrupt JSON in tasks file. Resetting to empty."])
  | .json (.arr xs) => (xs, [])
  | .json _ => ([], ["Corrupt tasks file: expected a list. Resetting to empty."])

/-- `save_tasks(tasks)` (lines 55-57): full-file rewrite with the
serialized collection. -/
def save_tasks (tasks : List Json) : FileContent :=
  .json (.arr tasks)

/-- `task.get("id", 0)` as consumed by `max`: `some 0` when the key is
missing (the default), the integer when present, `none` for the TypeError
crash a non-integer id provokes in `max`/`+ 1`. -/
def idNum (t : Json) : Option Int :=
  match dictGet t "id" with
  | none => none
  | some none => some 0
  | some (some (.num n)) => some n
  | some (some _) => none

/-- The id of a task, defaulting to 0; total companion of `idNum` used in
specifications. -/
def taskIdD (t : Json) : Int :=
  (idNum t).getD 0

/-- The generator `(task.get("id", 0) for task in tasks)` of `next_id`,
materialized; `none` models the crash on a non-integer id. -/
def idsOf : List Json → Option (List Int)
  | [] => some []
  | t :: ts =>
    match idNum t, idsOf ts with
    | some i, some is => some (i :: is)
    | _, _ => none

/-- `next_id(tasks)` (lines 60-63): 1 for an empty collection, otherwise
`max(task.get("id", 0) for task in tasks) + 1`. -/
def next_id (tasks : List Json) : Option Int :=
  match idsOf tasks with
  | none => none
  | some [] => some 1
  | some (i :: is) => some (is.foldl max i + 1)

/-- The comparison `task.get("id") == task_id` (with `task` a dict):
true exactly when the stored value is the integer `tid`; a missing key or
a value of another shape is simply unequal, as in Python. -/
def idMatches (tid : Int) (t : Json) : Bool :=
  match dictGet t "id" with
  | some (some (.num n)) => n == tid
  | _ => false

/-- `find_task(tasks, task_id)` (lines 66-70), by position: `none` models
the crash on a non-dict element, `some none` not-found, `some (some i)`
the index of the first task whose `id` equals `task_id`. -/
def findIdx : List Json → Int → Option (Option Nat)
  | [], _ => some none
  | t :: ts, tid =>
    match dictGet t "id" with
    | none => none
    | some _ =>
      if idMatches tid t then some (some 0)
      else (findIdx ts tid).map (Option.map Nat.succ)

/-- The comprehension `[t for t in tasks if t.get("id") != tid]` of
`cmd_delete` (line 128); `none` models the crash on a non-dict element. -/
def removeId : List Json → Int → Option (List Json)
  | [], _ => some []
  | t :: ts, tid =>
    match dictGet t "id" with
    | none => none
    | some _ => (removeId ts tid).map (fun r => if idMatches tid t then r else t :: r)

/-- ASCII lowering of one character (`str.lower()` restricted to ASCII,
which covers every verb and filter the script compares against). -/
def asciiLower (c : Char) : Char :=
  if 'A' ≤ c ∧ c ≤ 'Z' then Char.ofNat (c.toNat + 32) else c

/-- `s.lower()` (ASCII). -/
def strLower (s : String) : String :=
  ⟨s.data.map asciiLower⟩

/-- Python `str.strip()` as applied by `int()`: surrounding whitespace
removed. -/
def pyTrim (s : String) : String :=
  ⟨((s.data.dropWhile Char.isWhitespace).reverse.dropWhile Char.isWhitespace).reverse⟩

/-- Valid continuation of a decimal literal whose previous character was a
digit: digits, with single underscores allowed between digits. -/
def pyDigitsOkAux : List Char → Bool
  | [] => true
  | '_' :: rest =>
    match rest with
    | [] => false
    | d :: rest' => d.isDigit && pyDigitsOkAux rest'
  | c :: rest => c.isDigit && pyDigitsOkAux rest

/-- A valid unsigned decimal literal for Python's `int()`: nonempty,
starts and ends with a digit, single underscores only between digits. -/
def pyDigitsOk (cs : List Char) : Bool :=
  match cs with
  | [] => false
  | c :: rest => c.isDigit && pyDigitsOkAux rest

/-- Numeric value of a digit/underscore sequence. -/
def digitsToNat (cs : List Char) : Nat :=
  cs.foldl (fun a c => if c = '_' then a else a * 10 + (c.toNat - 48)) 0

/-- Python `int(s)` on decimal strings: optional surrounding whitespace,
optional sign, ASCII digits with single underscores between digits;
`none` is the ValueError every handler catches. -/
def pyInt (s : String) : Option Int :=
  match (pyTrim s).data with
  | '+' :: rest => if pyDigitsOk rest then some (digitsToNat rest) else none
  | '-' :: rest => if pyDigitsOk rest then some (-(digitsToNat rest : Int)) else none
  | rest => if pyDigitsOk rest then some (digitsToNat rest) else none

/-- `" ".join(args)`. -/
def joinSp : List String → String
  | [] => ""
  | [a] => a
  | a :: rest => a ++ " " ++ joinSp rest

/-- `cmd_add(args)` (lines 73-90). -/
def cmd_add (args : List String) (now : String) (fc : FileContent) :
    Option (FileContent × List String) :=
  match args with
  | [] => some (fc, ["Usage: add \"description\""])
  | description :: _ =>
    let tasks := (load_tasks fc).1
    let msgs := (load_tasks fc).2
    match next_id tasks with
    | none => none
    | some tid =>
      let task : Json := .obj [("id", .num tid), ("description", .str description),
        ("status", .str "todo"), ("createdAt", .str now), ("updatedAt", .str now)]
      some (save_tasks (tasks ++ [task]),
        msgs ++ ["Task added successfully (ID: " ++ toString tid ++ ")"])

/-- `cmd_update(args)` (lines 93-111).  The in-place mutation of the found
dict is rendered as replacement of the list element at the found index. -/
def cmd_update (args : List String) (now : String) (fc : FileContent) :
    Option (FileContent × List String) :=
  match args with
  | idArg :: newDescription :: _ =>
    (match pyInt idArg with
     | none => some (fc, ["Invalid id. Id must be an integer."])
     | some tid =>
       let tasks := (load_tasks fc).1
       let msgs := (load_tasks fc).2
       match findIdx tasks tid with
       | none => none
       | some none => some (fc, msgs ++ ["Task with ID " ++ toString tid ++ " not found."])
       | some (some i) =>
         match tasks[i]? with
         | some (.obj kvs) =>
           let t : Json :=
             .obj (setKey (setKey kvs "description" (.str newDescription)) "updatedAt" (.str now))
           some (save_tasks (tasks.set i t),
             msgs ++ ["Task " ++ toString tid ++ " updated successfully."])
         | _ => none)
  | _ => some (fc, ["Usage: update <id> \"new description\""])

/-- `cmd_delete(args)` (lines 114-130). -/
def cmd_delete (args : List String) (fc : FileContent) :
    Option (FileContent × List String) :=
  match args with
  | [] => some (fc, ["Usage: delete <id>"])
  | idArg :: _ =>
    match pyInt idArg with
    | none => some (fc, ["Invalid id. Id must be an integer."])
    | some tid =>
      let tasks := (load_tasks fc).1
      let msgs := (load_tasks fc).2
      match findIdx tasks tid with
      | none => none
      | some none => some (fc, msgs ++ ["Task with ID " ++ toString tid ++ " not found."])
      | some (some _) =>
        match removeId tasks tid with
        | none => none
        | some remaining =>
          some (save_tasks remaining,
            msgs ++ ["Task " ++ toString tid ++ " deleted successfully."])

/-- `cmd_mark(args, status)` (lines 133-150). -/
def cmd_mark (args : List String) (status : String) (now : String) (fc : FileContent) :
    Option (FileContent × List String) :=
  match args with
  | [] => some (fc, ["Usage: mark-" ++ status ++ " <id>"])
  | idArg :: _ =>
    match pyInt idArg with
    | none => some (fc, ["Invalid id. Id must be an integer."])
    | some tid =>
      let tasks := (load_tasks fc).1
      let msgs := (load_tasks fc).2
      match findIdx tasks tid with
      | none => none
      | some none => some (fc, msgs ++ ["Task with ID " ++ toString tid ++ " not found."])
      | some (some i) =>
        match tasks[i]? with
        | some (.obj kvs) =>
          let t : Json :=
            .obj (setKey (setKey kvs "status" (.str status)) "updatedAt" (.str now))
          some (save_tasks (tasks.set i t),
            msgs ++ ["Task " ++ toString tid ++ " marked as " ++ status ++ "."])
        | _ => none

/-- The filter-normalization chain of `cmd_list` (lines 154-167) on the
already-lowercased argument: `none` is the invalid-filter early return,
`some none` no filtering, `some (some s)` filtering by status `s`.  The
final branch mirrors the dead fall-through after the
`not in VALID_STATUSES` test. -/
def normFilter (s : String) : Option (Option String) :=
  if s = "todo" then some (some "todo")
  else if s = "in-progress" ∨ s = "inprogress" ∨ s = "in_progress" then some (some "in-progress")
  else if s = "done" ∨ s = "completed" then some (some "done")
  else if s = "all" then some none
  else if s ∉ (["todo", "in-progress", "done"] : List String) then none
  else some (some s)

/-- Python `str()` as used by the f-string in `fmt` (line 175).  The
composite cases are rendered repr-style; no claim ever prints one. -/
def pyStr : Json → String
  | .null => "None"
  | .bool b => if b then "True" else "False"
  | .num n => toString n
  | .str s => s
  | .arr _ => "[...]"
  | .obj _ => "\x7b...\x7d"

/-- `fmt(t)` (lines 174-175); `none` models the KeyError/TypeError crash
when `t` is not a dict holding all five fields. -/
def fmt (t : Json) : Option String := do
  let i ← dictItem t "id"
  let st ← dictItem t "status"
  let d ← dictItem t "description"
  let c ← dictItem t "createdAt"
  let u ← dictItem t "updatedAt"
  pure ("[" ++ pyStr i ++ "] (" ++ pyStr st ++ ") " ++ pyStr d ++
    "  - created: " ++ pyStr c ++ " updated: " ++ pyStr u)

/-- The comparison `t.get("status") == status_filter` (with `t` a dict):
true exactly when the stored value is the string `s`. -/
def statusMatches (s : String) (t : Json) : Bool :=
  match dictGet t "status" with
  | some (some (.str s')) => s' == s
  | _ => false

/-- The comprehension `[t for t in tasks if t.get("status") == status_filter]`
(line 177); `none` models the crash on a non-dict element. -/
def filterStatus : List Json → String → Option (List Json)
  | [], _ => some []
  | t :: ts, s =>
    match dictGet t "status" with
    | none => none
    | some _ => (filterStatus ts s).map (fun r => if statusMatches s t then t :: r else r)

/-- The printing loop of `cmd_list` (lines 181-182): the formatted line of
every task, in order; `none` models a crash while formatting. -/
def fmtAll : List Json → Option (List String)
  | [] => some []
  | t :: ts =>
    match fmt t, fmtAll ts with
    | some l, some ls => some (l :: ls)
    | _, _ => none

/-- `cmd_list` after filter normalization (lines 169-182). -/
def listBody (statusFilter : Option String) (fc : FileContent) :
    Option (FileContent × List String) :=
  let tasks := (load_tasks fc).1
  let msgs := (load_tasks fc).2
  if tasks.isEmpty then some (fc, msgs ++ ["No tasks found."])
  else
    match (match statusFilter with
           | none => some tasks
           | some s => filterStatus tasks s) with
    | none => none
    | some filtered =>
      if filtered.isEmpty then some (fc, msgs ++ ["No tasks match the filter."])
      else (fmtAll filtered).map (fun lines => (fc, msgs ++ lines))

/-- `cmd_list(args)` (lines 153-182). -/
def cmd_list (args : List String) (fc : FileContent) :
    Option (FileContent × List String) :=
  match args with
  | [] => listBody none fc
  | f :: _ =>
    match normFilter (strLower f) with
    | none => some (fc, ["Invalid status filter. Use: all | todo | in-progress | done"])
    | some sf => listBody sf fc

/-- `print_help()` (lines 185-193). -/
def helpLines : List String :=
  ["Task Tracker CLI", "Usage:", "  add \"description\"",
   "  update <id> \"new description\"", "  delete <id>", "  mark-in-progress <id>",
   "  mark-done <id>", "  list [all|todo|in-progress|done]"]

/-- `main()` (lines 196-228).  `argv` is `sys.argv[1:]`; the result pairs
the final file state with the printed lines, `none` being an uncaught
exception. -/
def main (argv : List String) (now : String) (fc : FileContent) :
    Option (FileContent × List String) :=
  match argv with
  | [] => some (fc, helpLines)
  | cmdArg :: args =>
    let cmd := strLower cmdArg
    if cmd = "add" then
      match args with
      | [] => some (fc, ["Usage: add \"description\""])
      | _ => cmd_add [joinSp args] now fc
    else if cmd = "update" then
      match args with
      | idArg :: d :: rest => cmd_update [idArg, joinSp (d :: rest)] now fc
      | _ => some (fc, ["Usage: update <id> \"new description\""])
    else if cmd = "delete" then cmd_delete args fc
    else if cmd = "mark-in-progress" then cmd_mark args "in-progress" now fc
    else if cmd = "mark-done" then cmd_mark args "done" now fc
    else if cmd = "list" then cmd_list args fc
    else if cmd = "-h" ∨ cmd = "--help" ∨ cmd = "help" then some (fc, helpLines)
    else some (fc, ("Unknown command: " ++ cmd) :: helpLines)

/-- A sequence of process invocations (argv together with the clock value
of each run) folded over the storage file. -/
def run : List (List String × String) → FileContent → Option FileContent
  | [], fc => some fc
  | (argv, now) :: ops, fc =>
    match main argv now fc with
    | none => none
    | some (fc', _) => run ops fc'

/-- The verbs `main` dispatches on (line 203 onwards). -/
def knownVerb (c : String) : Bool :=
  c = "add" || c = "update" || c = "delete" || c = "mark-in-progress" ||
  c = "mark-done" || c = "list" || c = "-h" || c = "--help" || c = "help"

/-- Invariant of the stored collection: every task has an
integer-readable id and the ids strictly increase in insertion order. -/
def TasksSorted (ts : List Json) : Prop :=
  (∀ t ∈ ts, (idNum t).isSome) ∧ ts.Pairwise (fun a b => taskIdD a < taskIdD b)

/-- The collection invariant read through the storage file. -/
def StateInv (fc : FileContent) : Prop :=
  TasksSorted (load_tasks fc).1

/-! ### Helper lemmas -/

theorem lookupKey_setKey_self (kvs : List (String × Json)) (k : String) (v : Json) :
    lookupKey (setKey kvs k v) k = some v := by
  induction kvs with
  | nil => simp [setKey, lookupKey]
  | cons p rest ih =>
    obtain ⟨k', w⟩ := p
    by_cases h : k' = k
    · simp [setKey, h, lookupKey]
    · simp [setKey, h, lookupKey, ih]


theorem lookupKey_setKey_ne (kvs : List (String × Json)) (k k' : String) (v : Json)
    (h : k' ≠ k) : lookupKey (setKey kvs k v) k' = lookupKey kvs k' := by
  induction kvs with
  | nil =>
    simp only [setKey, lookupKey]
    rw [if_neg (fun hk => h hk.symm)]
  | cons p rest ih =>
    obtain ⟨k₀, w⟩ := p
    by_cases hk : k₀ = k
    · subst hk
      simp only [setKey, if_pos rfl, lookupKey]
      rw [if_neg (fun hk => h hk.symm), if_neg (fun hk => h hk.symm)]
    · simp only [setKey, if_neg hk, lookupKey]
      by_cases hk' : k₀ = k'
      · simp [hk']
      · simp [hk', ih]

theorem le_foldl_max (l : List Int) (a : Int) : a ≤ l.foldl max a := by
  induction l generalizing a with
  | nil => exact le_refl a
  | cons b l ih => exact le_trans (le_max_left a b) (ih (max a b))

theorem mem_le_foldl_max (l : List Int) (a : Int) : ∀ x ∈ l, x ≤ l.foldl max a := by
  induction l generalizing a with
  | nil => intro x hx; cases hx
  | cons b l ih =>
    intro x hx
    rcases List.mem_cons.mp hx with h | h
    · subst h
      exact le_trans (le_max_right a x) (le_foldl_max l (max a x))
    · exact ih (max a b) x h

theorem foldl_max_mem (l : List Int) (a : Int) : l.foldl max a = a ∨ l.foldl max a ∈ l := by
  induction l generalizing a with
  | nil => exact Or.inl rfl
  | cons b l ih =>
    rcases ih (max a b) with h | h
    · rcases max_choice a b with hm | hm
      · exact Or.inl (by rw [List.foldl_cons, h, hm])
      · exact Or.inr (by rw [List.foldl_cons, h, hm]; exact List.mem_cons_self b l)
    · exact Or.inr (List.mem_cons_of_mem b h)

theorem idsOf_eq_map (ts : List Json) (ids : List Int) (h : idsOf ts = some ids) :
    ids = ts.map taskIdD ∧ ∀ t ∈ ts, (idNum t).isSome := by
  induction ts generalizing ids with
  | nil =>
    simp only [idsOf] at h
    cases h
    simp
  | cons t ts ih =>
    simp only [idsOf] at h
    cases hi : idNum t with
    | none => rw [hi] at h; cases hrest : idsOf ts <;> rw [hrest] at h <;> cases h
    | some i =>
      rw [hi] at h
      cases hrest : idsOf ts with
      | none => rw [hrest] at h; cases h
      | some is =>
        rw [hrest] at h
        cases h
        obtain ⟨hmap, hsome⟩ := ih is hrest
        refine ⟨?_, ?_⟩
        · simp [List.map_cons, ← hmap, taskIdD, hi]
        · intro u hu
          rcases List.mem_cons.mp hu with h | h
          · subst h; simp [hi]
          · exact hsome u h

theorem idsOf_of_forall (ts : List Json) (h : ∀ t ∈ ts, (idNum t).isSome) :
    idsOf ts = some (ts.map taskIdD) := by
  induction ts with
  | nil => rfl
  | cons t ts ih =>
    have ht : (idNum t).isSome := h t (List.mem_cons_self t ts)
    obtain ⟨i, hi⟩ := Option.isSome_iff_exists.mp ht
    simp only [idsOf, hi, ih (fun u hu => h u (List.mem_cons_of_mem t hu)), List.map_cons]
    simp [taskIdD, hi]

theorem idMatches_iff (tid : Int) (t : Json) :
    idMatches tid t = true ↔
      ∃ kvs, t = Json.obj kvs ∧ lookupKey kvs "id" = some (Json.num tid) := by
  constructor
  · intro h
    unfold idMatches at h
    split at h
    · next n heq =>
      have hn : n = tid := by simpa using h
      subst hn
      obtain ⟨kvs, ht⟩ : ∃ kvs, t = Json.obj kvs := by
        cases t <;> simp [dictGet] at heq
        exact ⟨_, rfl⟩
      subst ht
      simp only [dictGet, Option.some.injEq] at heq
      exact ⟨kvs, rfl, heq⟩
    · cases h
  · rintro ⟨kvs, rfl, hlk⟩
    simp [idMatches, dictGet, hlk]

theorem findIdx_found (ts : List Json) (tid : Int) (i : Nat)
    (h : findIdx ts tid = some (some i)) :
    ∃ kvs, ts[i]? = some (Json.obj kvs) ∧ lookupKey kvs "id" = some (Json.num tid) := by
  induction ts generalizing i with
  | nil => simp [findIdx] at h
  | cons t ts ih =>
    simp only [findIdx] at h
    split at h
    · cases h
    · split at h
      · next hm =>
        cases h
        obtain ⟨kvs, rfl, hlk⟩ := (idMatches_iff tid t).mp hm
        exact ⟨kvs, by simp, hlk⟩
      · rcases Option.map_eq_some'.mp h with ⟨o, ho, heq⟩
        cases o with
        | none => cases heq
        | some j =>
          simp only [Option.map_some'] at heq
          cases heq
          obtain ⟨kvs', h1, h2⟩ := ih j ho
          exact ⟨kvs', by simpa using h1, h2⟩

theorem removeId_sublist (ts : List Json) (tid : Int) (r : List Json)
    (h : removeId ts tid = some r) : r.Sublist ts := by
  induction ts generalizing r with
  | nil =>
    simp only [removeId] at h
    cases h
    exact List.Sublist.refl []
  | cons t ts ih =>
    simp only [removeId] at h
    split at h
    · cases h
    · rcases Option.map_eq_some'.mp h with ⟨r', hr', heq⟩
      subst heq
      by_cases hm : idMatches tid t
      · simpa [hm] using List.Sublist.cons t (ih _ hr')
      · simpa [hm] using List.Sublist.cons₂ t (ih _ hr')

theorem removeId_eq_filter (ts : List Json) (tid : Int) (r : List Json)
    (h : removeId ts tid = some r) :
    r = ts.filter (fun t => !(idMatches tid t)) := by
  induction ts generalizing r with
  | nil =>
    simp only [removeId] at h
    cases h
    rfl
  | cons t ts ih =>
    simp only [removeId] at h
    split at h
    · cases h
    · rcases Option.map_eq_some'.mp h with ⟨r', hr', heq⟩
      subst heq
      by_cases hm : idMatches tid t
      · simp [List.filter_cons, hm, ih _ hr']
      · simp [List.filter_cons, hm, ih _ hr']

theorem load_after_save (ts : List Json) : load_tasks (save_tasks ts) = (ts, []) := rfl

/-! ### Claim theorems -/

/-- C4: `load_tasks` returns an empty collection when the file is absent,
and recovers (warning plus empty collection, no crash) when the file is
malformed JSON or parses to a non-array value. -/
theorem C4_load_recovery :
    load_tasks .absent = ([], []) ∧
    load_tasks .malformed = ([], ["Corrupt JSON in tasks file. Resetting to empty."]) ∧
    ∀ j : Json, (∀ xs, j ≠ .arr xs) →
      load_tasks (.json j) = ([], ["Corrupt tasks file: expected a list. Resetting to empty."]) := by
  refine ⟨rfl, rfl, ?_⟩
  intro j hj
  cases j with
  | arr xs => exact absurd rfl (hj xs)
  | null => rfl
  | bool b => rfl
  | num n => rfl
  | str s => rfl
  | obj kvs => rfl

/-- Witness for C4 at the spec example `"not an array"`. -/
theorem C4_load_recovery_witness :
    load_tasks (.json (.str "not an array")) =
      ([], ["Corrupt tasks file: expected a list. Resetting to empty."]) :=
  C4_load_recovery.2.2 (.str "not an array") (fun _ h => Json.noConfusion h)

/-- C5: saving a collection and loading it back yields the same collection
(and no warnings); the JSON codec of the standard library is treated as
faithful, so this verifies the script round-trips the data unchanged
through its isinstance check. -/
theorem C5_round_trip : ∀ ts : List Json, load_tasks (save_tasks ts) = (ts, []) :=
  fun _ => rfl

/-- C8: `next_id` returns 1 on the empty collection and otherwise the
maximum of the ids the generator yields, plus 1. -/
theorem C8_next_id :
    next_id [] = some 1 ∧
    ∀ ts ids, ts ≠ [] → idsOf ts = some ids →
      ∃ m, m ∈ ids ∧ (∀ i ∈ ids, i ≤ m) ∧ next_id ts = some (m + 1) := by
  constructor
  · rfl
  intro ts ids hne hids
  cases ts with
  | nil => exact absurd rfl hne
  | cons t ts =>
    simp only [idsOf] at hids
    cases hi : idNum t with
    | none =>
      rw [hi] at hids
      cases hrest : idsOf ts <;> rw [hrest] at hids <;> cases hids
    | some i =>
      rw [hi] at hids
      cases hrest : idsOf ts with
      | none => rw [hrest] at hids; cases hids
      | some is =>
        rw [hrest] at hids
        cases hids
        refine ⟨is.foldl max i, ?_, ?_, ?_⟩
        · rcases foldl_max_mem is i with h | h
          · rw [h]; exact List.mem_cons_self i is
          · exact List.mem_cons_of_mem i h
        · intro x hx
          rcases List.mem_cons.mp hx with h | h
          · subst h; exact le_foldl_max is x
          · exact mem_le_foldl_max is i x h
        · simp [next_id, idsOf, hi, hrest]

/-- Witness for C8 on a concrete two-task collection. -/
theorem C8_next_id_witness :
    (([Json.obj [("id", Json.num 3)], Json.obj [("id", Json.num 5)]] : List Json) ≠ []) ∧
    idsOf [Json.obj [("id", Json.num 3)], Json.obj [("id", Json.num 5)]] = some [3, 5] ∧
    ∃ m, m ∈ [(3 : Int), 5] ∧ (∀ i ∈ [(3 : Int), 5], i ≤ m) ∧
      next_id [Json.obj [("id", Json.num 3)], Json.obj [("id", Json.num 5)]] = some (m + 1) :=
  ⟨by simp, rfl, C8_next_id.2 _ _ (by simp) rfl⟩

/-- C2 counterexample: `add` invoked with an explicit empty-string
description does NOT print the usage message and DOES mutate: starting
from an absent file it creates a task with empty description. -/
theorem C2_counterexample :
    main ["add", ""] "t1" .absent =
      some (save_tasks [Json.obj [("id", .num 1), ("description", .str ""),
        ("status", .str "todo"), ("createdAt", .str "t1"), ("updatedAt", .str "t1")]],
        ["Task added successfully (ID: 1)"]) ∧
    ∀ out, main ["add", ""] "t1" .absent ≠ some (FileContent.absent, out) := by
  refine ⟨rfl, ?_⟩
  intro out h
  rw [show main ["add", ""] "t1" .absent =
      some (save_tasks [Json.obj [("id", .num 1), ("description", .str ""),
        ("status", .str "todo"), ("createdAt", .str "t1"), ("updatedAt", .str "t1")]],
        ["Task added successfully (ID: 1)"]) from rfl] at h
  exact FileContent.noConfusion (congrArg Prod.fst (Option.some.inj h))

/-- C2 amended: `add` with no description argument at all prints the usage
message and performs no mutation. -/
theorem C2_add_no_arg_usage :
    ∀ fc now, main ["add"] now fc = some (fc, ["Usage: add \"description\""]) :=
  fun _ _ => rfl

/-- C1 counterexample: after add (id 1), delete 1, a further add assigns
id 1 again - the deleted id is reused, contradicting the claim. -/
theorem C1_counterexample :
    main ["add", "a"] "t1" .absent =
      some (save_tasks [Json.obj [("id", .num 1), ("description", .str "a"),
        ("status", .str "todo"), ("createdAt", .str "t1"), ("updatedAt", .str "t1")]],
        ["Task added successfully (ID: 1)"]) ∧
    main ["delete", "1"] "t2"
        (save_tasks [Json.obj [("id", .num 1), ("description", .str "a"),
          ("status", .str "todo"), ("createdAt", .str "t1"), ("updatedAt", .str "t1")]]) =
      some (save_tasks [], ["Task 1 deleted successfully."]) ∧
    main ["add", "b"] "t3" (save_tasks []) =
      some (save_tasks [Json.obj [("id", .num 1), ("description", .str "b"),
        ("status", .str "todo"), ("createdAt", .str "t3"), ("updatedAt", .str "t3")]],
        ["Task added successfully (ID: 1)"]) :=
  ⟨rfl, rfl, rfl⟩

/-! ### Collection invariant: ids strictly increase in insertion order -/

theorem taskIdD_eq_of_idNum (t t' : Json) (h : idNum t' = idNum t) : taskIdD t' = taskIdD t := by
  simp [taskIdD, h]

theorem tasksSorted_sublist (ts r : List Json) (hsub : r.Sublist ts) (h : TasksSorted ts) :
    TasksSorted r :=
  ⟨fun t ht => h.1 t (hsub.subset ht), h.2.sublist hsub⟩

theorem pairwise_lt_set (ts : List Json) (i : Nat) (t' t₀ : Json)
    (h0 : ts[i]? = some t₀) (hid : taskIdD t' = taskIdD t₀)
    (h : ts.Pairwise (fun a b => taskIdD a < taskIdD b)) :
    (ts.set i t').Pairwise (fun a b => taskIdD a < taskIdD b) := by
  induction ts generalizing i with
  | nil => simp
  | cons t ts ih =>
    cases i with
    | zero =>
      simp only [List.getElem?_cons_zero, Option.some.injEq] at h0
      subst h0
      rcases List.pairwise_cons.mp h with ⟨hhead, htail⟩
      exact List.pairwise_cons.mpr ⟨fun b hb => hid ▸ hhead b hb, htail⟩
    | succ i =>
      simp only [List.getElem?_cons_succ] at h0
      rcases List.pairwise_cons.mp h with ⟨hhead, htail⟩
      have ht₀ : t₀ ∈ ts := by
        have := List.getElem?_eq_some.mp h0
        obtain ⟨hlt, hget⟩ := this
        exact hget ▸ List.getElem_mem hlt
      refine List.pairwise_cons.mpr ⟨?_, ih i h0 htail⟩
      intro b hb
      rcases List.mem_or_eq_of_mem_set hb with hmem | rfl
      · exact hhead b hmem
      · exact hid ▸ hhead t₀ ht₀

theorem tasksSorted_set (ts : List Json) (i : Nat) (t' t₀ : Json)
    (h0 : ts[i]? = some t₀) (hid : idNum t' = idNum t₀) (h : TasksSorted ts) :
    TasksSorted (ts.set i t') := by
  refine ⟨?_, pairwise_lt_set ts i t' t₀ h0 (taskIdD_eq_of_idNum t₀ t' hid) h.2⟩
  intro a ha
  rcases List.mem_or_eq_of_mem_set ha with hmem | rfl
  · exact h.1 a hmem
  · have ht₀ : t₀ ∈ ts := by
      obtain ⟨hlt, hget⟩ := List.getElem?_eq_some.mp h0
      exact hget ▸ List.getElem_mem hlt
    rw [hid]
    exact h.1 t₀ ht₀

theorem next_id_gt (ts : List Json) (tid : Int) (hs : ∀ t ∈ ts, (idNum t).isSome)
    (h : next_id ts = some tid) : ∀ t ∈ ts, taskIdD t < tid := by
  have hids := idsOf_of_forall ts hs
  cases ts with
  | nil => intro t ht; cases ht
  | cons t0 ts =>
    intro t ht
    rw [List.map_cons] at hids
    simp only [next_id, hids] at h
    cases h
    have hle : taskIdD t ≤ (List.map taskIdD ts).foldl max (taskIdD t0) := by
      rcases List.mem_cons.mp ht with h' | h'
      · subst h'; exact le_foldl_max _ _
      · exact mem_le_foldl_max _ _ _ (List.mem_map_of_mem taskIdD h')
    omega

theorem newTask_idNum (tid : Int) (description now : String) :
    idNum (Json.obj [("id", Json.num tid), ("description", Json.str description),
      ("status", Json.str "todo"), ("createdAt", Json.str now),
      ("updatedAt", Json.str now)]) = some tid := rfl

theorem cmd_add_inv (args : List String) (now : String) (fc fc' : FileContent)
    (out : List String) (hInv : StateInv fc) (h : cmd_add args now fc = some (fc', out)) :
    StateInv fc' := by
  cases args with
  | nil =>
    simp only [cmd_add] at h
    cases h
    exact hInv
  | cons d rest =>
    simp only [cmd_add] at h
    split at h
    · cases h
    · next tid hnext =>
      cases h
      show TasksSorted (load_tasks (save_tasks ((load_tasks fc).1 ++ [_]))).1
      rw [load_after_save]
      have hgt := next_id_gt (load_tasks fc).1 tid hInv.1 hnext
      constructor
      · intro t ht
        rcases List.mem_append.mp ht with hmem | hmem
        · exact hInv.1 t hmem
        · rcases List.mem_singleton.mp hmem with rfl
          rw [newTask_idNum]
          rfl
      · rw [List.pairwise_append]
        refine ⟨hInv.2, List.pairwise_singleton _ _, ?_⟩
        intro a ha b hb
        rcases List.mem_singleton.mp hb with rfl
        have : taskIdD (Json.obj [("id", Json.num tid), ("description", Json.str d),
            ("status", Json.str "todo"), ("createdAt", Json.str now),
            ("updatedAt", Json.str now)]) = tid := by
          simp [taskIdD, newTask_idNum]
        rw [this]
        exact hgt a ha

theorem updated_idNum (kvs : List (String × Json)) (k1 k2 : String) (v1 v2 : Json)
    (h1 : k1 ≠ "id") (h2 : k2 ≠ "id") :
    idNum (Json.obj (setKey (setKey kvs k1 v1) k2 v2)) = idNum (Json.obj kvs) := by
  simp only [idNum, dictGet]
  rw [lookupKey_setKey_ne _ _ _ _ (fun he => h2 he.symm),
    lookupKey_setKey_ne _ _ _ _ (fun he => h1 he.symm)]

theorem cmd_update_inv (args : List String) (now : String) (fc fc' : FileContent)
    (out : List String) (hInv : StateInv fc) (h : cmd_update args now fc = some (fc', out)) :
    StateInv fc' := by
  rcases args with _ | ⟨idArg, _ | ⟨nd, rest⟩⟩
  · simp only [cmd_update] at h; cases h; exact hInv
  · simp only [cmd_update] at h; cases h; exact hInv
  · simp only [cmd_update] at h
    split at h
    · cases h; exact hInv
    · split at h
      · cases h
      · cases h; exact hInv
      · next i hfind =>
        split at h
        · next kvs hkvs =>
          cases h
          show TasksSorted (load_tasks (save_tasks ((load_tasks fc).1.set i _))).1
          rw [load_after_save]
          exact tasksSorted_set _ i _ _ hkvs
            (updated_idNum kvs "description" "updatedAt" _ _ (by decide) (by decide)) hInv
        · cases h

theorem cmd_mark_inv (args : List String) (status now : String) (fc fc' : FileContent)
    (out : List String) (hInv : StateInv fc) (h : cmd_mark args status now fc = some (fc', out)) :
    StateInv fc' := by
  rcases args with _ | ⟨idArg, rest⟩
  · simp only [cmd_mark] at h; cases h; exact hInv
  · simp only [cmd_mark] at h
    split at h
    · cases h; exact hInv
    · split at h
      · cases h
      · cases h; exact hInv
      · next i hfind =>
        split at h
        · next kvs hkvs =>
          cases h
          show TasksSorted (load_tasks (save_tasks ((load_tasks fc).1.set i _))).1
          rw [load_after_save]
          exact tasksSorted_set _ i _ _ hkvs
            (updated_idNum kvs "status" "updatedAt" _ _ (by decide) (by decide)) hInv
        · cases h

theorem cmd_delete_inv (args : List String) (fc fc' : FileContent)
    (out : List String) (hInv : StateInv fc) (h : cmd_delete args fc = some (fc', out)) :
    StateInv fc' := by
  rcases args with _ | ⟨idArg, rest⟩
  · simp only [cmd_delete] at h; cases h; exact hInv
  · simp only [cmd_delete] at h
    split at h
    · cases h; exact hInv
    · split at h
      · cases h
      · cases h; exact hInv
      · split at h
        · cases h
        · next r hrem =>
          cases h
          show TasksSorted (load_tasks (save_tasks r)).1
          rw [load_after_save]
          exact tasksSorted_sublist _ r (removeId_sublist _ _ r hrem) hInv

theorem listBody_state (sf : Option String) (fc fc' : FileContent) (out : List String)
    (h : listBody sf fc = some (fc', out)) : fc' = fc := by
  simp only [listBody] at h
  split at h
  · cases h; rfl
  · split at h
    · cases h
    · split at h
      · cases h; rfl
      · rcases Option.map_eq_some'.mp h with ⟨lines, _, heq⟩
        cases heq
        rfl

theorem cmd_list_state (args : List String) (fc fc' : FileContent) (out : List String)
    (h : cmd_list args fc = some (fc', out)) : fc' = fc := by
  rcases args with _ | ⟨f, rest⟩
  · exact listBody_state none fc fc' out h
  · simp only [cmd_list] at h
    split at h
    · cases h; rfl
    · next sf hsf => exact listBody_state sf fc fc' out h

theorem main_inv (argv : List String) (now : String) (fc fc' : FileContent)
    (out : List String) (hInv : StateInv fc) (h : main argv now fc = some (fc', out)) :
    StateInv fc' := by
  cases argv with
  | nil => simp only [main] at h; cases h; exact hInv
  | cons cmdArg args =>
    simp only [main] at h
    split_ifs at h with h1 h2 h3 h4 h5 h6 h7
    · cases args with
      | nil => cases h; exact hInv
      | cons a rest => exact cmd_add_inv _ now fc fc' out hInv h
    · rcases args with _ | ⟨a, _ | ⟨b, rest⟩⟩
      · cases h; exact hInv
      · cases h; exact hInv
      · exact cmd_update_inv _ now fc fc' out hInv h
    · exact cmd_delete_inv args fc fc' out hInv h
    · exact cmd_mark_inv args "in-progress" now fc fc' out hInv h
    · exact cmd_mark_inv args "done" now fc fc' out hInv h
    · have := cmd_list_state args fc fc' out h
      subst this
      exact hInv
    · cases h; exact hInv
    · cases h; exact hInv

theorem run_inv (ops : List (List String × String)) (fc fc' : FileContent)
    (hInv : StateInv fc) (h : run ops fc = some fc') : StateInv fc' := by
  induction ops generalizing fc with
  | nil => simp only [run] at h; cases h; exact hInv
  | cons op ops ih =>
    obtain ⟨argv, now⟩ := op
    simp only [run] at h
    split at h
    · cases h
    · next fc1 out hmain => exact ih fc1 (main_inv argv now fc fc1 out hInv hmain) h

theorem stateInv_absent : StateInv .absent :=
  ⟨fun t ht => absurd ht (List.not_mem_nil t), List.Pairwise.nil⟩

/-- C1 amended: in every state reachable from an empty store by any
sequence of commands, every task has an integer id, the ids strictly
increase in insertion order, and they are pairwise distinct (each add
assigns `max + 1`, strictly above every live id).  The original claim's
"an id is never reused after deletion" is refuted by `C1_counterexample`:
deleting the task with the maximum id frees that id for the next add. -/
theorem C1_reachable_ids_sorted :
    ∀ ops fc', run ops FileContent.absent = some fc' →
      (∀ t ∈ (load_tasks fc').1, (idNum t).isSome) ∧
      ((load_tasks fc').1).Pairwise (fun a b => taskIdD a < taskIdD b) ∧
      (((load_tasks fc').1).map taskIdD).Nodup := by
  intro ops fc' h
  have hInv : StateInv fc' := run_inv ops .absent fc' stateInv_absent h
  refine ⟨hInv.1, hInv.2, ?_⟩
  exact List.pairwise_map.mpr (hInv.2.imp fun hlt => ne_of_lt hlt)

/-- Witness for C1 on the run add "a", add "b", delete 1. -/
theorem C1_reachable_ids_sorted_witness :
    (∀ t ∈ (load_tasks (save_tasks [Json.obj [("id", Json.num 2),
        ("description", Json.str "b"), ("status", Json.str "todo"),
        ("createdAt", Json.str "t2"), ("updatedAt", Json.str "t2")]])).1,
      (idNum t).isSome) ∧
    ((load_tasks (save_tasks [Json.obj [("id", Json.num 2),
        ("description", Json.str "b"), ("status", Json.str "todo"),
        ("createdAt", Json.str "t2"), ("updatedAt", Json.str "t2")]])).1).Pairwise
      (fun a b => taskIdD a < taskIdD b) ∧
    (((load_tasks (save_tasks [Json.obj [("id", Json.num 2),
        ("description", Json.str "b"), ("status", Json.str "todo"),
        ("createdAt", Json.str "t2"), ("updatedAt", Json.str "t2")]])).1).map taskIdD).Nodup :=
  C1_reachable_ids_sorted
    [(["add", "a"], "t1"), (["add", "b"], "t2"), (["delete", "1"], "t3")]
    (save_tasks [Json.obj [("id", Json.num 2), ("description", Json.str "b"),
      ("status", Json.str "todo"), ("createdAt", Json.str "t2"),
      ("updatedAt", Json.str "t2")]]) rfl

/-- C3: every invalid user input - a non-integer id for update, delete or
the mark commands, a missing required argument, an unknown list filter, an
unknown verb - produces a usage or error message and leaves the stored
collection untouched (no save happens: the resulting file state is the
original one). -/
theorem C3_invalid_input_no_mutation :
    ∀ fc now,
      (∀ idArg d rest, pyInt idArg = none →
        main ("update" :: idArg :: d :: rest) now fc =
          some (fc, ["Invalid id. Id must be an integer."])) ∧
      (∀ idArg rest, pyInt idArg = none →
        main ("delete" :: idArg :: rest) now fc =
          some (fc, ["Invalid id. Id must be an integer."])) ∧
      (∀ idArg rest, pyInt idArg = none →
        main ("mark-in-progress" :: idArg :: rest) now fc =
          some (fc, ["Invalid id. Id must be an integer."])) ∧
      (∀ idArg rest, pyInt idArg = none →
        main ("mark-done" :: idArg :: rest) now fc =
          some (fc, ["Invalid id. Id must be an integer."])) ∧
      main ["add"] now fc = some (fc, ["Usage: add \"description\""]) ∧
      main ["update"] now fc = some (fc, ["Usage: update <id> \"new description\""]) ∧
      (∀ x, main ["update", x] now fc =
        some (fc, ["Usage: update <id> \"new description\""])) ∧
      main ["delete"] now fc = some (fc, ["Usage: delete <id>"]) ∧
      main ["mark-in-progress"] now fc = some (fc, ["Usage: mark-in-progress <id>"]) ∧
      main ["mark-done"] now fc = some (fc, ["Usage: mark-done <id>"]) ∧
      (∀ f rest, normFilter (strLower f) = none →
        main ("list" :: f :: rest) now fc =
          some (fc, ["Invalid status filter. Use: all | todo | in-progress | done"])) ∧
      (∀ v args, knownVerb (strLower v) = false →
        main (v :: args) now fc =
          some (fc, ("Unknown command: " ++ strLower v) :: helpLines)) := by
  intro fc now
  refine ⟨?_, ?_, ?_, ?_, rfl, rfl, fun x => rfl, rfl, rfl, rfl, ?_, ?_⟩
  · intro idArg d rest hparse
    rw [show main ("update" :: idArg :: d :: rest) now fc =
      cmd_update [idArg, joinSp (d :: rest)] now fc from rfl]
    simp only [cmd_update, hparse]
  · intro idArg rest hparse
    rw [show main ("delete" :: idArg :: rest) now fc =
      cmd_delete (idArg :: rest) fc from rfl]
    simp only [cmd_delete, hparse]
  · intro idArg rest hparse
    rw [show main ("mark-in-progress" :: idArg :: rest) now fc =
      cmd_mark (idArg :: rest) "in-progress" now fc from rfl]
    simp only [cmd_mark, hparse]
  · intro idArg rest hparse
    rw [show main ("mark-done" :: idArg :: rest) now fc =
      cmd_mark (idArg :: rest) "done" now fc from rfl]
    simp only [cmd_mark, hparse]
  · intro f rest hnf
    rw [show main ("list" :: f :: rest) now fc = cmd_list (f :: rest) fc from rfl]
    simp only [cmd_list, hnf]
  · intro v args hv
    simp only [knownVerb, Bool.or_eq_false_iff, decide_eq_false_iff_not] at hv
    obtain ⟨⟨⟨⟨⟨⟨⟨⟨hadd, hupd⟩, hdel⟩, hmip⟩, hmd⟩, hlist⟩, hh⟩, hhh⟩, hhelp⟩ := hv
    simp only [main]
    rw [if_neg hadd, if_neg hupd, if_neg hdel, if_neg hmip, if_neg hmd, if_neg hlist,
      if_neg (fun hor => hor.elim hh (fun hor2 => hor2.elim hhh hhelp))]

/-- Witness for C3: a non-integer id, an unknown filter and an unknown
verb, each on an absent file. -/
theorem C3_invalid_input_no_mutation_witness :
    pyInt "abc" = none ∧
    normFilter (strLower "bogus") = none ∧
    knownVerb (strLower "frobnicate") = false ∧
    main ["update", "abc", "d"] "t" .absent =
      some (.absent, ["Invalid id. Id must be an integer."]) ∧
    main ["list", "bogus"] "t" .absent =
      some (.absent, ["Invalid status filter. Use: all | todo | in-progress | done"]) ∧
    main ["frobnicate"] "t" .absent =
      some (.absent, ("Unknown command: " ++ strLower "frobnicate") :: helpLines) :=
  ⟨rfl, rfl, rfl,
    (C3_invalid_input_no_mutation .absent "t").1 "abc" "d" [] rfl,
    (C3_invalid_input_no_mutation .absent "t").2.2.2.2.2.2.2.2.2.2.1 "bogus" [] rfl,
    (C3_invalid_input_no_mutation .absent "t").2.2.2.2.2.2.2.2.2.2.2 "frobnicate" [] rfl⟩

/-- C6: when the collection holds a task with the given id, update
replaces the found task's description, refreshes its updatedAt, leaves its
id, status and createdAt untouched, and leaves every other task (and its
position) unchanged. -/
theorem C6_update_frame (fc : FileContent) (idArg desc now : String) (tid : Int) (i : Nat)
    (hparse : pyInt idArg = some tid)
    (hfind : findIdx (load_tasks fc).1 tid = some (some i)) :
    ∃ kvs kvs',
      (load_tasks fc).1[i]? = some (Json.obj kvs) ∧
      kvs' = setKey (setKey kvs "description" (Json.str desc)) "updatedAt" (Json.str now) ∧
      main ["update", idArg, desc] now fc =
        some (save_tasks ((load_tasks fc).1.set i (Json.obj kvs')),
          (load_tasks fc).2 ++ ["Task " ++ toString tid ++ " updated successfully."]) ∧
      lookupKey kvs' "description" = some (Json.str desc) ∧
      lookupKey kvs' "updatedAt" = some (Json.str now) ∧
      lookupKey kvs' "id" = lookupKey kvs "id" ∧
      lookupKey kvs' "status" = lookupKey kvs "status" ∧
      lookupKey kvs' "createdAt" = lookupKey kvs "createdAt" ∧
      ∀ j, j ≠ i → ((load_tasks fc).1.set i (Json.obj kvs'))[j]? = (load_tasks fc).1[j]? := by
  obtain ⟨kvs, hkvs, hlk⟩ := findIdx_found _ tid i hfind
  refine ⟨kvs, _, hkvs, rfl, ?_, ?_, ?_, ?_, ?_, ?_, ?_⟩
  · rw [show main ["update", idArg, desc] now fc = cmd_update [idArg, desc] now fc from rfl]
    simp only [cmd_update, hparse, hfind, hkvs]
  · rw [lookupKey_setKey_ne _ _ _ _ (by decide), lookupKey_setKey_self]
  · rw [lookupKey_setKey_self]
  · rw [lookupKey_setKey_ne _ _ _ _ (by decide), lookupKey_setKey_ne _ _ _ _ (by decide)]
  · rw [lookupKey_setKey_ne _ _ _ _ (by decide), lookupKey_setKey_ne _ _ _ _ (by decide)]
  · rw [lookupKey_setKey_ne _ _ _ _ (by decide), lookupKey_setKey_ne _ _ _ _ (by decide)]
  · intro j hj
    exact List.getElem?_set_ne (fun he => hj he.symm)

/-- Witness for C6 on a one-task collection. -/
theorem C6_update_frame_witness :
    pyInt "1" = some 1 ∧
    findIdx (load_tasks (save_tasks [Json.obj [("id", Json.num 1),
      ("description", Json.str "x"), ("status", Json.str "todo"),
      ("createdAt", Json.str "c"), ("updatedAt", Json.str "c")]])).1 1 = some (some 0) ∧
    (∃ kvs kvs',
      (load_tasks (save_tasks [Json.obj [("id", Json.num 1),
        ("description", Json.str "x"), ("status", Json.str "todo"),
        ("createdAt", Json.str "c"), ("updatedAt", Json.str "c")]])).1[0]? =
          some (Json.obj kvs) ∧
      kvs' = setKey (setKey kvs "description" (Json.str "y")) "updatedAt" (Json.str "t2") ∧
      main ["update", "1", "y"] "t2" (save_tasks [Json.obj [("id", Json.num 1),
        ("description", Json.str "x"), ("status", Json.str "todo"),
        ("createdAt", Json.str "c"), ("updatedAt", Json.str "c")]]) =
        some (save_tasks ((load_tasks (save_tasks [Json.obj [("id", Json.num 1),
            ("description", Json.str "x"), ("status", Json.str "todo"),
            ("createdAt", Json.str "c"), ("updatedAt", Json.str "c")]])).1.set 0
              (Json.obj kvs')),
          (load_tasks (save_tasks [Json.obj [("id", Json.num 1),
            ("description", Json.str "x"), ("status", Json.str "todo"),
            ("createdAt", Json.str "c"), ("updatedAt", Json.str "c")]])).2 ++
            ["Task " ++ toString (1 : Int) ++ " updated successfully."]) ∧
      lookupKey kvs' "description" = some (Json.str "y") ∧
      lookupKey kvs' "updatedAt" = some (Json.str "t2") ∧
      lookupKey kvs' "id" = lookupKey kvs "id" ∧
      lookupKey kvs' "status" = lookupKey kvs "status" ∧
      lookupKey kvs' "createdAt" = lookupKey kvs "createdAt" ∧
      ∀ j, j ≠ 0 → ((load_tasks (save_tasks [Json.obj [("id", Json.num 1),
        ("description", Json.str "x"), ("status", Json.str "todo"),
        ("createdAt", Json.str "c"), ("updatedAt", Json.str "c")]])).1.set 0
          (Json.obj kvs'))[j]? =
        (load_tasks (save_tasks [Json.obj [("id", Json.num 1),
          ("description", Json.str "x"), ("status", Json.str "todo"),
          ("createdAt", Json.str "c"), ("updatedAt", Json.str "c")]])).1[j]?) :=
  ⟨rfl, rfl, C6_update_frame _ "1" "y" "t2" 1 0 rfl rfl⟩

/-- C10: when the collection holds a task with the given id, delete saves
exactly the tasks whose id differs, keeping them unchanged and in their
original relative order; every task bearing the id (duplicates included)
is removed. -/
theorem C10_delete_removes_all (fc : FileContent) (idArg now : String) (tid : Int) (i : Nat)
    (r : List Json)
    (hparse : pyInt idArg = some tid)
    (hfind : findIdx (load_tasks fc).1 tid = some (some i))
    (hrem : removeId (load_tasks fc).1 tid = some r) :
    main ["delete", idArg] now fc =
      some (save_tasks r,
        (load_tasks fc).2 ++ ["Task " ++ toString tid ++ " deleted successfully."]) ∧
    r = (load_tasks fc).1.filter (fun t => !(idMatches tid t)) ∧
    ∀ t ∈ r, idMatches tid t = false := by
  refine ⟨?_, removeId_eq_filter _ tid r hrem, ?_⟩
  · rw [show main ["delete", idArg] now fc = cmd_delete [idArg] fc from rfl]
    simp only [cmd_delete, hparse, hfind, hrem]
  · intro t ht
    rw [removeId_eq_filter _ tid r hrem] at ht
    have := (List.mem_filter.mp ht).2
    simpa using this

/-- Witness for C10: deleting id 2 from a collection where two tasks bear
id 2 removes both and keeps the id-1 task. -/
theorem C10_delete_removes_all_witness :
    pyInt "2" = some 2 ∧
    findIdx (load_tasks (save_tasks [Json.obj [("id", Json.num 1)],
      Json.obj [("id", Json.num 2)], Json.obj [("id", Json.num 2)]])).1 2 = some (some 1) ∧
    removeId (load_tasks (save_tasks [Json.obj [("id", Json.num 1)],
      Json.obj [("id", Json.num 2)], Json.obj [("id", Json.num 2)]])).1 2 =
      some [Json.obj [("id", Json.num 1)]] ∧
    (main ["delete", "2"] "t" (save_tasks [Json.obj [("id", Json.num 1)],
        Json.obj [("id", Json.num 2)], Json.obj [("id", Json.num 2)]]) =
      some (save_tasks [Json.obj [("id", Json.num 1)]],
        (load_tasks (save_tasks [Json.obj [("id", Json.num 1)],
          Json.obj [("id", Json.num 2)], Json.obj [("id", Json.num 2)]])).2 ++
          ["Task " ++ toString (2 : Int) ++ " deleted successfully."]) ∧
    [Json.obj [("id", Json.num 1)]] =
      (load_tasks (save_tasks [Json.obj [("id", Json.num 1)],
        Json.obj [("id", Json.num 2)], Json.obj [("id", Json.num 2)]])).1.filter
        (fun t => !(idMatches 2 t)) ∧
    ∀ t ∈ [Json.obj [("id", Json.num 1)]], idMatches 2 t = false) :=
  ⟨rfl, rfl, rfl, C10_delete_removes_all _ "2" "t" 2 1 _ rfl rfl rfl⟩

theorem fmtAll_length (ts : List Json) (lines : List String) (h : fmtAll ts = some lines) :
    lines.length = ts.length := by
  induction ts generalizing lines with
  | nil => simp only [fmtAll] at h; cases h; rfl
  | cons t ts ih =>
    simp only [fmtAll] at h
    split at h
    · next l ls hl hls =>
      cases h
      simp [ih ls hls]
    · cases h

theorem fmtAll_get (ts : List Json) (lines : List String) (h : fmtAll ts = some lines) :
    ∀ k : Nat, lines[k]? = (ts[k]?).bind fmt := by
  induction ts generalizing lines with
  | nil =>
    simp only [fmtAll] at h
    cases h
    intro k
    simp
  | cons t ts ih =>
    simp only [fmtAll] at h
    split at h
    · next l ls hl hls =>
      cases h
      intro k
      cases k with
      | zero => simp [hl]
      | succ k => simpa using ih ls hls k
    · cases h

/-- C9: list prints one formatted line per matching task, in collection
order; an empty collection prints "No tasks found." and a valid filter
matching nothing prints "No tasks match the filter."; both are ordinary
returns (no crash, no mutation). -/
theorem C9_list_output (fc : FileContent) (now : String) :
    ((load_tasks fc).1 = [] →
      main ["list"] now fc = some (fc, (load_tasks fc).2 ++ ["No tasks found."])) ∧
    (∀ f c, normFilter (strLower f) = some (some c) → (load_tasks fc).1 ≠ [] →
      filterStatus (load_tasks fc).1 c = some [] →
      main ["list", f] now fc =
        some (fc, (load_tasks fc).2 ++ ["No tasks match the filter."])) ∧
    (∀ f c fts lines, normFilter (strLower f) = some (some c) → (load_tasks fc).1 ≠ [] →
      filterStatus (load_tasks fc).1 c = some fts → fts ≠ [] → fmtAll fts = some lines →
      main ["list", f] now fc = some (fc, (load_tasks fc).2 ++ lines) ∧
      lines.length = fts.length ∧ ∀ k : Nat, lines[k]? = (fts[k]?).bind fmt) ∧
    (∀ lines, (load_tasks fc).1 ≠ [] → fmtAll (load_tasks fc).1 = some lines →
      main ["list"] now fc = some (fc, (load_tasks fc).2 ++ lines) ∧
      lines.length = (load_tasks fc).1.length ∧
      ∀ k : Nat, lines[k]? = ((load_tasks fc).1[k]?).bind fmt) := by
  refine ⟨?_, ?_, ?_, ?_⟩
  · intro hempty
    rw [show main ["list"] now fc = listBody none fc from rfl]
    simp [listBody, hempty]
  · intro f c hnf hne hfilter
    rw [show main ["list", f] now fc = cmd_list [f] fc from rfl]
    simp only [cmd_list, hnf, listBody, hfilter]
    simp [List.isEmpty_iff, hne]
  · intro f c fts lines hnf hne hfilter hftsne hfmt
    refine ⟨?_, fmtAll_length fts lines hfmt, fmtAll_get fts lines hfmt⟩
    rw [show main ["list", f] now fc = cmd_list [f] fc from rfl]
    simp only [cmd_list, hnf, listBody, hfilter, hfmt]
    simp [List.isEmpty_iff, hne, hftsne]
  · intro lines hne hfmt
    refine ⟨?_, fmtAll_length _ lines hfmt, fmtAll_get _ lines hfmt⟩
    rw [show main ["list"] now fc = listBody none fc from rfl]
    simp only [listBody, hfmt]
    simp [List.isEmpty_iff, hne]

/-- Witness for C9 on concrete collections. -/
theorem C9_list_output_witness :
    ((load_tasks .absent).1 = ([] : List Json)) ∧
    main ["list"] "t" .absent = some (.absent, (load_tasks .absent).2 ++ ["No tasks found."]) ∧
    (normFilter (strLower "todo") = some (some "todo") ∧
     (load_tasks (save_tasks [Json.obj [("id", Json.num 1), ("description", Json.str "a"),
        ("status", Json.str "done"), ("createdAt", Json.str "c"),
        ("updatedAt", Json.str "c")]])).1 ≠ [] ∧
     filterStatus (load_tasks (save_tasks [Json.obj [("id", Json.num 1),
        ("description", Json.str "a"), ("status", Json.str "done"),
        ("createdAt", Json.str "c"), ("updatedAt", Json.str "c")]])).1 "todo" = some [] ∧
     main ["list", "todo"] "t" (save_tasks [Json.obj [("id", Json.num 1),
        ("description", Json.str "a"), ("status", Json.str "done"),
        ("createdAt", Json.str "c"), ("updatedAt", Json.str "c")]]) =
       some (save_tasks [Json.obj [("id", Json.num 1), ("description", Json.str "a"),
          ("status", Json.str "done"), ("createdAt", Json.str "c"),
          ("updatedAt", Json.str "c")]],
         (load_tasks (save_tasks [Json.obj [("id", Json.num 1),
            ("description", Json.str "a"), ("status", Json.str "done"),
            ("createdAt", Json.str "c"), ("updatedAt", Json.str "c")]])).2 ++
           ["No tasks match the filter."])) :=
  ⟨rfl, (C9_list_output .absent "t").1 rfl,
    rfl, List.cons_ne_nil _ _,
    rfl,
    (C9_list_output _ "t").2.1 "todo" "todo" rfl (List.cons_ne_nil _ _) rfl⟩

/-- C7: the list filter is lowercased and normalized - `all` (or no
argument) means unfiltered, `todo` filters todo, `inprogress` and
`in_progress` alias `in-progress`, `completed` aliases `done` - and any
other argument yields the invalid-filter error with no task line printed
and no mutation. -/
theorem C7_filter_normalization (fc : FileContent) (now : String) (f : String)
    (rest : List String) :
    (strLower f = "all" → main ("list" :: f :: rest) now fc = main ["list"] now fc) ∧
    (strLower f = "todo" → main ("list" :: f :: rest) now fc = listBody (some "todo") fc) ∧
    (strLower f ∈ (["in-progress", "inprogress", "in_progress"] : List String) →
      main ("list" :: f :: rest) now fc = listBody (some "in-progress") fc) ∧
    (strLower f ∈ (["done", "completed"] : List String) →
      main ("list" :: f :: rest) now fc = listBody (some "done") fc) ∧
    main ["list"] now fc = listBody none fc ∧
    (normFilter (strLower f) = none →
      main ("list" :: f :: rest) now fc =
        some (fc, ["Invalid status filter. Use: all | todo | in-progress | done"])) ∧
    (normFilter (strLower f) = none ↔
      strLower f ∉ (["all", "todo", "in-progress", "inprogress", "in_progress",
        "done", "completed"] : List String)) := by
  have hdisp : main ("list" :: f :: rest) now fc = cmd_list (f :: rest) fc := rfl
  refine ⟨?_, ?_, ?_, ?_, rfl, ?_, ?_⟩
  · intro h
    rw [hdisp]
    simp only [cmd_list, h]
    rfl
  · intro h
    rw [hdisp]
    simp only [cmd_list, h]
    rfl
  · intro hm
    rw [hdisp]
    simp only [List.mem_cons, List.mem_singleton, List.not_mem_nil, or_false] at hm
    rcases hm with h | h | h <;> simp only [cmd_list, h] <;> rfl
  · intro hm
    rw [hdisp]
    simp only [List.mem_cons, List.mem_singleton, List.not_mem_nil, or_false] at hm
    rcases hm with h | h <;> simp only [cmd_list, h] <;> rfl
  · intro h
    rw [hdisp]
    simp only [cmd_list, h]
  · constructor
    · intro h hmem
      simp only [List.mem_cons, List.not_mem_nil, or_false] at hmem
      rcases hmem with h1 | h1 | h1 | h1 | h1 | h1 | h1 <;>
        rw [h1] at h <;> exact absurd h (by decide)
    · intro h
      simp only [List.mem_cons, List.not_mem_nil, or_false, not_or] at h
      obtain ⟨h1, h2, h3, h4, h5, h6, h7⟩ := h
      have hno3 : ¬(strLower f = "in-progress" ∨ strLower f = "inprogress" ∨
          strLower f = "in_progress") := by
        rintro (hx | hx | hx)
        exacts [h3 hx, h4 hx, h5 hx]
      have hno6 : ¬(strLower f = "done" ∨ strLower f = "completed") := by
        rintro (hx | hx)
        exacts [h6 hx, h7 hx]
      have hpos : strLower f ∉ (["todo", "in-progress", "done"] : List String) := by
        simp only [List.mem_cons, List.not_mem_nil, or_false, not_or]
        exact ⟨h2, h3, h6⟩
      unfold normFilter
      rw [if_neg h2, if_neg hno3, if_neg hno6, if_neg h1, if_pos hpos]

/-- Witness for C7 with the alias `COMPLETED` and the junk filter
`bogus`. -/
theorem C7_filter_normalization_witness :
    strLower "COMPLETED" ∈ (["done", "completed"] : List String) ∧
    main ["list", "COMPLETED"] "t" .absent = listBody (some "done") .absent ∧
    normFilter (strLower "bogus") = none ∧
    main ["list", "bogus"] "t" .absent =
      some (.absent, ["Invalid status filter. Use: all | todo | in-progress | done"]) :=
  ⟨by decide, (C7_filter_normalization .absent "t" "COMPLETED" []).2.2.2.1 (by decide),
    rfl, (C7_filter_normalization .absent "t" "bogus" []).2.2.2.2.2.1 rfl⟩

end TaskCli
